import Mathlib

/-!
Shallow embedding of the near-http-fetch repository.

Contract side (src/src/lib.rs): the request registry and continuation
coordinator.  Contract state holds the trusted relayer account, the u64
request-id counter, and two near-sdk IterableMap tables (requests and
response_bodies).  An IterableMap keeps a vector of keys next to a
key-to-value lookup and iterates in key-vector order; inserting an existing
key updates the value in place, inserting a fresh key pushes it to the end
of the vector, and removing a key swap-removes it from the vector (the last
key moves into the removed slot).  We model each table as an association
list in key-vector order.  Host interactions are explicit parameters: the
yield id written to the register by promise_yield_create is an input of
fetch, and the promise result inspected by on_fetch_complete is an input of
that callback.  A panicking NEAR call reverts, so the step function leaves
the state unchanged on error.

Relayer side (src/relayer/src/lib.rs): handle_request dispatches a fetched
body by size into submissions against the contract, modelled as a pure plan
(single calls and one atomic batch transaction), plus an executor that runs
a plan against the embedded contract.
-/

namespace HttpFetch

abbrev AccountId := String

/-- Byte sequences (Rust Vec of u8) modelled as lists of naturals. -/
abbrev Bytes := List Nat

/-- Association list in near-sdk IterableMap key-vector order. -/
abbrev IMap (β : Type) := List (Nat × β)

/-- Lookup in an IterableMap: the value stored next to key k. -/
def imapGet (m : IMap β) (k : Nat) : Option β :=
  (m.find? fun p => p.1 == k).map Prod.snd

/-- IterableMap insert: an existing key keeps its slot in the key vector and
gets the new value; a fresh key is pushed to the end of the vector. -/
def imapInsert (m : IMap β) (k : Nat) (v : β) : IMap β :=
  match m with
  | [] => [(k, v)]
  | p :: rest => if p.1 == k then (k, v) :: rest else p :: imapInsert rest k v

/-- IterableMap remove: the key is swap-removed from the key vector, so the
last entry moves into the removed slot and the vector shrinks by one. -/
def imapRemove (m : IMap β) (k : Nat) : IMap β :=
  match m.findIdx? (fun p => p.1 == k) with
  | none => m
  | some i =>
    match m.getLast? with
    | none => m
    | some last => (m.set i last).dropLast

/-- StoredRequest from src/src/lib.rs: the registry entry kept per request.
The yield_id is a CryptoHash, 32 bytes. -/
structure StoredRequest where
  yield_id : Bytes
  url : String
  caller : AccountId
  context : Option Bytes
deriving DecidableEq, Repr

/-- PendingRequest view returned by list_requests. -/
structure PendingRequest where
  request_id : Nat
  url : String
  caller : AccountId
  context : Option Bytes
  yield_id : Bytes
deriving DecidableEq, Repr

inductive FetchStatus where
  | Completed
  | TimedOut
deriving DecidableEq, Repr

/-- FetchResult delivered to the suspended caller by on_fetch_complete. -/
structure FetchResult where
  request_id : Nat
  url : String
  status : FetchStatus
  body : Option Bytes
  context : Option Bytes
  caller : AccountId
deriving DecidableEq, Repr

/-- Panics of the contract, one constructor per panic or require message. -/
inductive ContractErr where
  | Unauthorized
  | InvalidYieldId
  | UnknownRequestId
  | TokenMismatch
  | NoBody
  | Overflow
  | MissingRequest
deriving DecidableEq, Repr

/-- Result of the yielded promise as seen by on_fetch_complete: Successful
when respond resumed it, Failed when the host timeout expired. -/
inductive HostPromiseResult where
  | Successful (data : Bytes)
  | Failed
deriving DecidableEq, Repr

/-- Contract state from src/src/lib.rs. next_request_id is a u64; values
are kept below 2 ^ 64 and the checked increment in fetch is explicit. -/
structure Contract where
  trusted_relayer : AccountId
  next_request_id : Nat
  requests : IMap StoredRequest
  response_bodies : IMap Bytes
deriving DecidableEq, Repr

/-- Contract.new: fresh state with empty tables and counter zero. -/
def Contract.new (trusted_relayer : AccountId) : Contract :=
  { trusted_relayer := trusted_relayer
    next_request_id := 0
    requests := []
    response_bodies := [] }

/-- fetch(url, context): allocates the next request id with a checked u64
increment, reads the 32-byte yield id the host wrote to the register, and
stores the request.  caller is env predecessor, yield_id the register
content.  Returns the new state and the assigned request id. -/
def Contract.fetch (s : Contract) (caller : AccountId) (url : String)
    (context : Option Bytes) (yield_id : Bytes) :
    Except ContractErr (Contract × Nat) :=
  if s.next_request_id + 1 ≥ 2 ^ 64 then
    .error .Overflow
  else if yield_id.length ≠ 32 then
    .error .InvalidYieldId
  else
    .ok ({ s with
            next_request_id := s.next_request_id + 1
            requests := imapInsert s.requests s.next_request_id
              { yield_id := yield_id, url := url
                caller := caller, context := context } },
         s.next_request_id)

/-- list_requests: a view of the requests table in iteration order. -/
def Contract.list_requests (s : Contract) : List PendingRequest :=
  s.requests.map fun p =>
    { request_id := p.1
      url := p.2.url
      caller := p.2.caller
      context := p.2.context
      yield_id := p.2.yield_id }

/-- respond(request_id, yield_id, body): trusted-relayer only; parses the
provided yield id as a 32-byte CryptoHash, looks up the request, checks the
token, then either stores the inline body or requires a staged body to be
present, and resumes the yielded promise. -/
def Contract.respond (s : Contract) (caller : AccountId) (request_id : Nat)
    (yield_id : Bytes) (body : Option Bytes) : Except ContractErr Contract :=
  if caller ≠ s.trusted_relayer then
    .error .Unauthorized
  else if yield_id.length ≠ 32 then
    .error .InvalidYieldId
  else
    match imapGet s.requests request_id with
    | none => .error .UnknownRequestId
    | some request =>
      if request.yield_id ≠ yield_id then
        .error .TokenMismatch
      else
        match body with
        | some data =>
          .ok { s with response_bodies := imapInsert s.response_bodies request_id data }
        | none =>
          match imapGet s.response_bodies request_id with
          | none => .error .NoBody
          | some _ => .ok s

/-- store_response_chunk(request_id, data, append): trusted-relayer only;
append false starts from an empty buffer, append true from the staged bytes
(empty when absent); data is appended and the buffer stored back. -/
def Contract.store_response_chunk (s : Contract) (caller : AccountId)
    (request_id : Nat) (data : Bytes) (append : Bool) :
    Except ContractErr Contract :=
  if caller ≠ s.trusted_relayer then
    .error .Unauthorized
  else
    let current := if append then (imapGet s.response_bodies request_id).getD [] else []
    .ok { s with
            response_bodies := imapInsert s.response_bodies request_id (current ++ data) }

/-- on_fetch_complete(request_id): the private callback the host invokes to
settle the yielded promise; removes the request and any staged body and
builds the FetchResult from the promise outcome. -/
def Contract.on_fetch_complete (s : Contract) (request_id : Nat)
    (pr : HostPromiseResult) : Except ContractErr (Contract × FetchResult) :=
  match imapGet s.requests request_id with
  | none => .error .MissingRequest
  | some request =>
    let stored_body := imapGet s.response_bodies request_id
    let s1 := { s with
                  requests := imapRemove s.requests request_id
                  response_bodies := imapRemove s.response_bodies request_id }
    match pr with
    | .Successful _ =>
      .ok (s1, { request_id := request_id, url := request.url
                 status := .Completed, body := stored_body
                 context := request.context, caller := request.caller })
    | .Failed =>
      .ok (s1, { request_id := request_id, url := request.url
                 status := .TimedOut, body := none
                 context := request.context, caller := request.caller })

/-- One mutating contract call together with its host-supplied inputs. -/
inductive Op where
  | fetch (caller : AccountId) (url : String) (context : Option Bytes) (yield_id : Bytes)
  | respond (caller : AccountId) (request_id : Nat) (yield_id : Bytes) (body : Option Bytes)
  | store_chunk (caller : AccountId) (request_id : Nat) (data : Bytes) (append : Bool)
  | settle (request_id : Nat) (pr : HostPromiseResult)
deriving DecidableEq, Repr

/-- Effect of one call on ledger state: a panicking call reverts, so an
error leaves the state unchanged. -/
def step (s : Contract) (op : Op) : Contract :=
  match op with
  | .fetch c u x y =>
    match s.fetch c u x y with
    | .ok r => r.1
    | .error _ => s
  | .respond c i y b =>
    match s.respond c i y b with
    | .ok s1 => s1
    | .error _ => s
  | .store_chunk c i d a =>
    match s.store_response_chunk c i d a with
    | .ok s1 => s1
    | .error _ => s
  | .settle i pr =>
    match s.on_fetch_complete i pr with
    | .ok r => r.1
    | .error _ => s

/-- A serialized sequence of ledger calls. -/
def execTrace (s : Contract) (ops : List Op) : Contract :=
  ops.foldl step s

/-- FetchResult produced by a settle call, none when the callback panics. -/
def settleResult (s : Contract) (request_id : Nat) (pr : HostPromiseResult) :
    Option FetchResult :=
  match s.on_fetch_complete request_id pr with
  | .ok r => some r.2
  | .error _ => none

/-- CHUNK_SIZE from src/relayer/src/lib.rs. -/
def CHUNK_SIZE : Nat := 300000

/-- One function-call action the relayer submits to the contract. -/
inductive RelayAction where
  | store_chunk (request_id : Nat) (data : Bytes) (append : Bool)
  | respond (request_id : Nat) (yield_id : Bytes) (body : Option Bytes)
deriving DecidableEq, Repr

/-- One submission: a single-action transaction or an atomic batch. -/
inductive Submission where
  | single (action : RelayAction)
  | batch (actions : List RelayAction)
deriving DecidableEq, Repr

/-- Rust slice chunks: pieces of n elements in order, last possibly
shorter; no pieces for an empty slice. -/
def chunksOf (n : Nat) (l : Bytes) : List Bytes :=
  match n, l with
  | _, [] => []
  | 0, _ :: _ => []
  | n + 1, x :: xs => ((x :: xs).take (n + 1)) :: chunksOf (n + 1) ((x :: xs).drop (n + 1))
termination_by l.length
decreasing_by simp [List.length_drop]; omega

/-- store_response_chunks from the relayer: one single-action transaction
per chunk, the first with append false and every later one with append
true. -/
def store_response_chunks (request_id : Nat) (body : Bytes) : List Submission :=
  (chunksOf CHUNK_SIZE body).enum.map fun p =>
    .single (.store_chunk request_id p.2 (p.1 != 0))

/-- handle_request dispatch from the relayer: an empty body is resolved
inline; a body of at most CHUNK_SIZE bytes goes in one atomic batch of a
store_response_chunk and a respond; a larger body is chunk-stored and then
resolved by a separate respond. -/
def handle_request (request_id : Nat) (yield_id : Bytes) (body : Bytes) :
    List Submission :=
  if body.isEmpty then
    [.single (.respond request_id yield_id (some body))]
  else if body.length ≤ CHUNK_SIZE then
    [.batch [.store_chunk request_id body false, .respond request_id yield_id none]]
  else
    store_response_chunks request_id body ++ [.single (.respond request_id yield_id none)]

/-- Effect of one relay action on contract state, as the contract call it
names. -/
def applyRelayAction (caller : AccountId) (s : Contract) (a : RelayAction) :
    Except ContractErr Contract :=
  match a with
  | .store_chunk i d ap => s.store_response_chunk caller i d ap
  | .respond i y b => s.respond caller i y b

/-- Actions of a batch run in order; the first failure aborts the rest. -/
def applyActionList (caller : AccountId) (s : Contract) :
    List RelayAction → Except ContractErr Contract
  | [] => .ok s
  | a :: rest =>
    match applyRelayAction caller s a with
    | .error e => .error e
    | .ok s1 => applyActionList caller s1 rest

/-- Effect of one submission on ledger state: a transaction commits in full
or reverts in full, so a failed single or batch leaves the state
unchanged. -/
def applySubmission (caller : AccountId) (s : Contract) (sub : Submission) :
    Contract :=
  match sub with
  | .single a =>
    match applyRelayAction caller s a with
    | .ok s1 => s1
    | .error _ => s
  | .batch as =>
    match applyActionList caller s as with
    | .ok s1 => s1
    | .error _ => s

/-- Submissions of a plan run sequentially against the contract. -/
def applySubmissions (caller : AccountId) (s : Contract) (subs : List Submission) :
    Contract :=
  subs.foldl (applySubmission caller) s

/-- Decidable equality of call results, so concrete runs can be settled by
the decide tactic. -/
instance {ε α : Type} [DecidableEq ε] [DecidableEq α] : DecidableEq (Except ε α)
  | .error a, .error b =>
    if h : a = b then .isTrue (by rw [h]) else
      .isFalse (fun hc => h (by cases hc; rfl))
  | .error _, .ok _ => .isFalse (fun hc => Except.noConfusion hc)
  | .ok _, .error _ => .isFalse (fun hc => Except.noConfusion hc)
  | .ok a, .ok b =>
    if h : a = b then .isTrue (by rw [h]) else
      .isFalse (fun hc => h (by cases hc; rfl))

theorem imapGet_cons (p : Nat × β) (rest : IMap β) (k : Nat) :
    imapGet (p :: rest) k = if p.1 = k then some p.2 else imapGet rest k := by
  by_cases h : p.1 = k <;> simp [imapGet, List.find?_cons, h]

theorem imapGet_imapInsert_self (m : IMap β) (k : Nat) (v : β) :
    imapGet (imapInsert m k v) k = some v := by
  induction m with
  | nil => simp [imapGet, imapInsert]
  | cons p rest ih =>
    by_cases h : p.1 = k
    · simp [imapInsert, h, imapGet_cons]
    · simp [imapInsert, h, imapGet_cons, ih]

theorem imapInsert_of_not_mem (m : IMap β) (k : Nat) (v : β)
    (h : ∀ p ∈ m, p.1 ≠ k) : imapInsert m k v = m ++ [(k, v)] := by
  induction m with
  | nil => simp [imapInsert]
  | cons p rest ih =>
    have hp : p.1 ≠ k := h p (by simp)
    simp only [imapInsert, beq_iff_eq, hp, if_false, List.cons_append,
      List.cons.injEq, true_and]
    exact ih fun q hq => h q (by simp [hq])

theorem imapGet_imapRemove_self (m : IMap β) (k : Nat)
    (hnd : (m.map Prod.fst).Nodup) : imapGet (imapRemove m k) k = none := by
  unfold imapRemove
  cases hidx : m.findIdx? (fun p => p.1 == k) with
  | none =>
    have hall := List.findIdx?_eq_none_iff.mp hidx
    have hnone : List.find? (fun p => p.1 == k) m = none :=
      List.find?_eq_none.mpr fun x hx => by simp [hall x hx]
    simp [imapGet, hnone]
  | some i =>
    rw [List.findIdx?_eq_some_iff_getElem] at hidx
    obtain ⟨hi, hpi, hprev⟩ := hidx
    have hki : m[i].1 = k := by simpa using hpi
    have huniq : ∀ j (hj : j < m.length), m[j].1 = k → j = i := by
      intro j hj hkey
      have hj2 : j < (m.map Prod.fst).length := by simpa using hj
      have hi2 : i < (m.map Prod.fst).length := by simpa using hi
      have hmap : (m.map Prod.fst)[j] = (m.map Prod.fst)[i] := by
        rw [List.getElem_map, List.getElem_map, hkey, hki]
      exact (hnd.getElem_inj_iff).mp hmap
    cases hlast : m.getLast? with
    | none =>
      rw [List.getLast?_eq_getElem?, List.getElem?_eq_none_iff] at hlast
      omega
    | some last =>
      have hlen1 : m.length - 1 < m.length := by omega
      have hlast2 : last = m[m.length - 1] := by
        rw [List.getLast?_eq_getElem?, List.getElem?_eq_getElem hlen1] at hlast
        exact (Option.some.inj hlast).symm
      have hnone : List.find? (fun p => p.1 == k) ((m.set i last).dropLast) = none := by
        rw [List.find?_eq_none]
        intro x hx
        rw [List.mem_iff_getElem] at hx
        obtain ⟨j, hj, hxj⟩ := hx
        have hj1 : j < m.length - 1 := by
          simpa using hj
        have hj2 : j < (m.set i last).length := by
          simp; omega
        have hgd : (m.set i last).dropLast[j] = (m.set i last)[j] :=
          List.getElem_dropLast ..
        rw [hgd, List.getElem_set] at hxj
        simp only [beq_iff_eq]
        intro hxk
        by_cases hij : i = j
        · rw [if_pos hij] at hxj
          have : m.length - 1 = i := huniq (m.length - 1) hlen1 (by rw [← hlast2, hxj, hxk])
          omega
        · rw [if_neg hij] at hxj
          have : j = i := huniq j (by omega) (by rw [hxj, hxk])
          exact hij this.symm
      simp [imapGet, hnone]

theorem fetch_ok_elim {s t : Contract} {c : AccountId} {u : String}
    {x : Option Bytes} {y : Bytes} {id : Nat}
    (h : s.fetch c u x y = .ok (t, id)) :
    id = s.next_request_id ∧
    t.next_request_id = s.next_request_id + 1 ∧
    t.requests = imapInsert s.requests s.next_request_id
      { yield_id := y, url := u, caller := c, context := x } ∧
    t.response_bodies = s.response_bodies ∧
    t.trusted_relayer = s.trusted_relayer ∧
    s.next_request_id + 1 < 2 ^ 64 ∧ y.length = 32 := by
  unfold Contract.fetch at h
  by_cases h1 : s.next_request_id + 1 ≥ 2 ^ 64
  · rw [if_pos h1] at h
    exact Except.noConfusion h
  · rw [if_neg h1] at h
    by_cases h2 : y.length ≠ 32
    · rw [if_pos h2] at h
      exact Except.noConfusion h
    · rw [if_neg h2] at h
      simp only [Except.ok.injEq, Prod.mk.injEq] at h
      obtain ⟨ht, hid⟩ := h
      refine ⟨hid.symm, ?_, ?_, ?_, ?_, by omega, by omega⟩ <;> rw [← ht]

theorem fetch_ok_intro (s : Contract) (c : AccountId) (u : String)
    (x : Option Bytes) (y : Bytes)
    (hn : s.next_request_id + 1 < 2 ^ 64) (hy : y.length = 32) :
    s.fetch c u x y =
      .ok ({ s with
              next_request_id := s.next_request_id + 1
              requests := imapInsert s.requests s.next_request_id
                { yield_id := y, url := u, caller := c, context := x } },
           s.next_request_id) := by
  unfold Contract.fetch
  rw [if_neg (by omega : ¬ s.next_request_id + 1 ≥ 2 ^ 64),
    if_neg (by simp [hy] : ¬ y.length ≠ 32)]

theorem respond_ok_elim {s t : Contract} {c : AccountId} {i : Nat}
    {y : Bytes} {b : Option Bytes} (h : s.respond c i y b = .ok t) :
    t.next_request_id = s.next_request_id ∧
    t.requests = s.requests ∧
    t.trusted_relayer = s.trusted_relayer := by
  unfold Contract.respond at h
  repeat' split at h
  all_goals first
    | exact Except.noConfusion h
    | · simp only [Except.ok.injEq] at h
        rw [← h]
        exact ⟨rfl, rfl, rfl⟩

theorem respond_none_ok_elim {s t : Contract} {c : AccountId} {i : Nat}
    {y : Bytes} (h : s.respond c i y none = .ok t) : t = s := by
  unfold Contract.respond at h
  repeat' split at h
  all_goals first
    | exact Except.noConfusion h
    | · simp only [Except.ok.injEq] at h
        exact h.symm
    | simp_all

theorem store_ok_of_trusted (s : Contract) (i : Nat) (d : Bytes) (a : Bool) :
    s.store_response_chunk s.trusted_relayer i d a =
      .ok { s with
              response_bodies := imapInsert s.response_bodies i
                ((if a then (imapGet s.response_bodies i).getD [] else []) ++ d) } := by
  unfold Contract.store_response_chunk
  simp

theorem store_ok_elim {s t : Contract} {c : AccountId} {i : Nat}
    {d : Bytes} {a : Bool} (h : s.store_response_chunk c i d a = .ok t) :
    t.next_request_id = s.next_request_id ∧
    t.requests = s.requests ∧
    t.trusted_relayer = s.trusted_relayer := by
  unfold Contract.store_response_chunk at h
  repeat' split at h
  all_goals first
    | exact Except.noConfusion h
    | · simp only [Except.ok.injEq] at h
        rw [← h]
        exact ⟨rfl, rfl, rfl⟩

theorem settle_ok_elim {s t : Contract} {i : Nat} {pr : HostPromiseResult}
    {res : FetchResult} (h : s.on_fetch_complete i pr = .ok (t, res)) :
    t.next_request_id = s.next_request_id ∧
    t.requests = imapRemove s.requests i ∧
    t.response_bodies = imapRemove s.response_bodies i ∧
    t.trusted_relayer = s.trusted_relayer := by
  unfold Contract.on_fetch_complete at h
  repeat' split at h
  all_goals first
    | exact Except.noConfusion h
    | · simp only [Except.ok.injEq, Prod.mk.injEq] at h
        rw [← h.1]
        exact ⟨rfl, rfl, rfl, rfl⟩

theorem step_next_mono (s : Contract) (op : Op) :
    s.next_request_id ≤ (step s op).next_request_id := by
  cases op with
  | fetch c u x y =>
    simp only [step]
    cases h : s.fetch c u x y with
    | ok r =>
      have h2 := @fetch_ok_elim s r.1 c u x y r.2 (by rw [h])
      show s.next_request_id ≤ r.1.next_request_id
      omega
    | error e => exact Nat.le_refl _
  | respond c i y b =>
    simp only [step]
    cases h : s.respond c i y b with
    | ok t =>
      show s.next_request_id ≤ t.next_request_id
      exact (respond_ok_elim h).1.ge
    | error e => exact Nat.le_refl _
  | store_chunk c i d a =>
    simp only [step]
    cases h : s.store_response_chunk c i d a with
    | ok t =>
      show s.next_request_id ≤ t.next_request_id
      exact (store_ok_elim h).1.ge
    | error e => exact Nat.le_refl _
  | settle i pr =>
    simp only [step]
    cases h : s.on_fetch_complete i pr with
    | ok r =>
      have h2 := @settle_ok_elim s r.1 i pr r.2 (by rw [h])
      show s.next_request_id ≤ r.1.next_request_id
      omega
    | error e => exact Nat.le_refl _

theorem execTrace_next_mono (ops : List Op) (s : Contract) :
    s.next_request_id ≤ (execTrace s ops).next_request_id := by
  induction ops generalizing s with
  | nil => exact Nat.le_refl _
  | cons op rest ih =>
    calc s.next_request_id ≤ (step s op).next_request_id := step_next_mono s op
      _ ≤ (execTrace (step s op) rest).next_request_id := ih (step s op)

/-- Well-formed id bookkeeping: the keys of the requests table are strictly
ascending in key-vector order and all lie below the counter. -/
def GoodIds (s : Contract) : Prop :=
  (s.requests.map Prod.fst).Pairwise (· < ·) ∧
  ∀ p ∈ s.requests, p.1 < s.next_request_id

/-- Recognizer for fetch operations in a trace. -/
def isFetchOp : Op → Bool
  | .fetch _ _ _ _ => true
  | _ => false

theorem goodIds_new (r : AccountId) : GoodIds (Contract.new r) := by
  constructor <;> simp [Contract.new]

theorem goodIds_step_fetch (s : Contract) (op : Op) (hf : isFetchOp op = true)
    (hg : GoodIds s) : GoodIds (step s op) := by
  cases op with
  | fetch c u x y =>
    simp only [step]
    cases h : s.fetch c u x y with
    | error e => exact hg
    | ok r =>
      obtain ⟨hid, hnext, hreq, hrb, htr, hlt, hy⟩ :=
        @fetch_ok_elim s r.1 c u x y r.2 (by rw [h])
      show GoodIds r.1
      have hnotmem : ∀ p ∈ s.requests, p.1 ≠ s.next_request_id :=
        fun p hp => Nat.ne_of_lt (hg.2 p hp)
      rw [GoodIds, hreq, hnext, imapInsert_of_not_mem _ _ _ hnotmem]
      constructor
      · rw [List.map_append, List.pairwise_append]
        refine ⟨hg.1, by simp, ?_⟩
        intro a ha b hb
        simp only [List.map_cons, List.map_nil, List.mem_singleton] at hb
        subst hb
        simp only [List.mem_map] at ha
        obtain ⟨p, hp, rfl⟩ := ha
        exact hg.2 p hp
      · intro p hp
        rcases List.mem_append.mp hp with h1 | h1
        · exact Nat.lt_succ_of_lt (hg.2 p h1)
        · simp only [List.mem_singleton] at h1
          subst h1
          exact Nat.lt_succ_self _
  | respond c i y b => simp [isFetchOp] at hf
  | store_chunk c i d a => simp [isFetchOp] at hf
  | settle i pr => simp [isFetchOp] at hf

theorem goodIds_trace (ops : List Op) (s : Contract)
    (hall : ops.all isFetchOp = true) (hg : GoodIds s) :
    GoodIds (execTrace s ops) := by
  induction ops generalizing s with
  | nil => exact hg
  | cons op rest ih =>
    simp only [List.all_cons, Bool.and_eq_true] at hall
    exact ih (step s op) hall.2 (goodIds_step_fetch s op hall.1 hg)

theorem list_requests_ids (s : Contract) :
    s.list_requests.map PendingRequest.request_id = s.requests.map Prod.fst := by
  simp only [Contract.list_requests, List.map_map]
  rfl

theorem chunksOf_cons (n : Nat) (l : Bytes) (h : l ≠ []) :
    chunksOf (n + 1) l = l.take (n + 1) :: chunksOf (n + 1) (l.drop (n + 1)) := by
  cases l with
  | nil => exact absurd rfl h
  | cons x xs => rw [chunksOf]

theorem chunksOf_flatten (m : Nat) (l : Bytes) (hm : m ≠ 0) :
    (chunksOf m l).flatten = l := by
  induction m, l using chunksOf.induct with
  | case1 k => rw [chunksOf]; rfl
  | case2 x xs => exact absurd rfl hm
  | case3 k x xs ih =>
    rw [chunksOf]
    simp only [List.flatten_cons, ih (Nat.succ_ne_zero k)]
    exact List.take_append_drop (k + 1) (x :: xs)

theorem chunksOf_length (m : Nat) (l : Bytes) (hm : m ≠ 0) :
    (chunksOf m l).length = (l.length + (m - 1)) / m := by
  induction m, l using chunksOf.induct with
  | case1 k =>
    rw [chunksOf]
    cases k with
    | zero => exact absurd rfl hm
    | succ k2 =>
      simp only [List.length_nil, Nat.zero_add, Nat.add_sub_cancel]
      exact (Nat.div_eq_of_lt (by omega)).symm
  | case2 x xs => exact absurd rfl hm
  | case3 k x xs ih =>
    rw [chunksOf]
    simp only [List.length_cons]
    rw [ih (Nat.succ_ne_zero k)]
    simp only [List.length_drop, List.length_cons, Nat.succ_eq_add_one, Nat.add_sub_cancel]
    by_cases hle : xs.length + 1 ≤ k + 1
    · have h1 : xs.length + 1 - (k + 1) = 0 := by omega
      rw [h1]
      rw [Nat.div_eq_of_lt (by omega),
        Nat.div_eq_of_lt_le (by omega : 1 * (k + 1) ≤ xs.length + 1 + k)
          (by omega : xs.length + 1 + k < (1 + 1) * (k + 1))]
    · have h1 : xs.length + 1 + k = xs.length + 1 - (k + 1) + k + (k + 1) := by omega
      rw [h1, Nat.add_div_right _ (by omega)]

theorem chunksOf_mem_length (m : Nat) (l : Bytes) (hm : m ≠ 0) :
    ∀ c ∈ chunksOf m l, c.length ≤ m := by
  induction m, l using chunksOf.induct with
  | case1 k => rw [chunksOf]; intro c hc; cases hc
  | case2 x xs => exact absurd rfl hm
  | case3 k x xs ih =>
    rw [chunksOf]
    intro c hc
    rcases List.mem_cons.mp hc with h1 | h1
    · subst h1
      exact List.length_take_le (k + 1) (x :: xs)
    · exact ih (Nat.succ_ne_zero k) c h1

theorem enumFrom_store_map (id : Nat) (cs : List Bytes) (k : Nat) :
    (cs.enumFrom (k + 1)).map
        (fun p => Submission.single (.store_chunk id p.2 (p.1 != 0)))
      = cs.map fun c => Submission.single (.store_chunk id c true) := by
  induction cs generalizing k with
  | nil => rfl
  | cons c rest ih =>
    simp only [List.enumFrom_cons, List.map_cons, ih (k + 1), List.cons.injEq, and_true]
    simp

theorem store_response_chunks_cons (id : Nat) (body c0 : Bytes) (rest : List Bytes)
    (h : chunksOf CHUNK_SIZE body = c0 :: rest) :
    store_response_chunks id body =
      Submission.single (.store_chunk id c0 false) ::
        rest.map fun c => Submission.single (.store_chunk id c true) := by
  unfold store_response_chunks
  rw [h, List.enum_cons]
  simp only [List.map_cons]
  rw [enumFrom_store_map]
  simp

theorem applySubmissions_cons (c : AccountId) (s : Contract) (x : Submission)
    (xs : List Submission) :
    applySubmissions c s (x :: xs) = applySubmissions c (applySubmission c s x) xs := rfl

theorem applySubmissions_append (c : AccountId) (s : Contract)
    (l1 l2 : List Submission) :
    applySubmissions c s (l1 ++ l2) = applySubmissions c (applySubmissions c s l1) l2 :=
  List.foldl_append _ _ _ _

theorem applySubmission_respond_none (c : AccountId) (s : Contract) (i : Nat)
    (y : Bytes) : applySubmission c s (.single (.respond i y none)) = s := by
  simp only [applySubmission, applyRelayAction]
  cases h : s.respond c i y none with
  | ok t => exact respond_none_ok_elim h
  | error e => rfl

theorem applySubmission_store (s : Contract) (i : Nat) (d : Bytes) (ap : Bool) :
    applySubmission s.trusted_relayer s (.single (.store_chunk i d ap)) =
      { s with
          response_bodies := imapInsert s.response_bodies i
            ((if ap then (imapGet s.response_bodies i).getD [] else []) ++ d) } := by
  simp only [applySubmission, applyRelayAction]
  rw [store_ok_of_trusted]

theorem staged_after_append_stores (i : Nat) (cs : List Bytes) (s : Contract)
    (p : Bytes) (hp : imapGet s.response_bodies i = some p) :
    imapGet (applySubmissions s.trusted_relayer s
        (cs.map fun c => Submission.single (.store_chunk i c true))).response_bodies i
      = some (p ++ cs.flatten) := by
  induction cs generalizing s p with
  | nil => simpa using hp
  | cons cd rest ih =>
    rw [List.map_cons, applySubmissions_cons, applySubmission_store]
    have hget : imapGet ({ s with
        response_bodies := imapInsert s.response_bodies i
          ((if true then (imapGet s.response_bodies i).getD [] else []) ++ cd) }
          : Contract).response_bodies i = some (p ++ cd) := by
      simp [hp, imapGet_imapInsert_self]
    have hrec := ih _ _ hget
    simpa [List.append_assoc] using hrec

theorem staged_after_chunk_plan (i : Nat) (y body : Bytes) (s : Contract)
    (hbig : body.length > CHUNK_SIZE) :
    imapGet (applySubmissions s.trusted_relayer s
        (handle_request i y body)).response_bodies i = some body := by
  have hne : body ≠ [] := by
    intro h
    rw [h] at hbig
    simp [CHUNK_SIZE] at hbig
  have hCK : CHUNK_SIZE ≠ 0 := by decide
  have hplan : handle_request i y body
      = store_response_chunks i body ++ [.single (.respond i y none)] := by
    unfold handle_request
    rw [if_neg (by simpa [List.isEmpty_iff] using hne), if_neg (by omega)]
  rw [hplan, applySubmissions_append]
  rw [show applySubmissions s.trusted_relayer
      (applySubmissions s.trusted_relayer s (store_response_chunks i body))
      [Submission.single (.respond i y none)]
    = applySubmission s.trusted_relayer
      (applySubmissions s.trusted_relayer s (store_response_chunks i body))
      (Submission.single (.respond i y none)) from rfl]
  rw [applySubmission_respond_none]
  obtain ⟨c0, rest, hch⟩ : ∃ c0 rest, chunksOf CHUNK_SIZE body = c0 :: rest := by
    rw [show CHUNK_SIZE = 299999 + 1 from rfl, chunksOf_cons _ _ hne]
    exact ⟨_, _, rfl⟩
  rw [store_response_chunks_cons i body c0 rest hch]
  rw [applySubmissions_cons, applySubmission_store]
  have hget : imapGet ({ s with
      response_bodies := imapInsert s.response_bodies i
        ((if false then (imapGet s.response_bodies i).getD [] else []) ++ c0) }
        : Contract).response_bodies i = some c0 := by
    simp [imapGet_imapInsert_self]
  have hrec := staged_after_append_stores i rest _ c0 hget
  have hfl := chunksOf_flatten CHUNK_SIZE body hCK
  rw [hch, List.flatten_cons] at hfl
  rw [← hfl]
  exact hrec

/-- Concrete 32-byte continuation tokens for witness states. -/
def tok0 : Bytes := List.replicate 32 0

/-- A second, distinct 32-byte token. -/
def tok1 : Bytes := List.replicate 32 1

/-- Witness state: one pending request with token tok0 and a staged body. -/
def wState : Contract :=
  { trusted_relayer := "relayer"
    next_request_id := 1
    requests := [(0, { yield_id := tok0, url := "u", caller := "alice", context := none })]
    response_bodies := [(0, [7])] }

/-- Witness state: one pending request with token tok0 and nothing staged. -/
def wStateNB : Contract :=
  { trusted_relayer := "relayer"
    next_request_id := 1
    requests := [(0, { yield_id := tok0, url := "u", caller := "alice", context := none })]
    response_bodies := [] }

/-- C1: a respond call by the trusted relayer for an existing request whose
provided yield id differs from the stored continuation token always fails
(with TokenMismatch when the token is 32 bytes, with InvalidYieldId
otherwise), and since a panicking call reverts, the requests table and the
response_bodies table are unchanged. -/
theorem claim_C1 (s : Contract) (id : Nat) (y : Bytes) (b : Option Bytes)
    (req : StoredRequest)
    (hreq : imapGet s.requests id = some req)
    (hmis : req.yield_id ≠ y) :
    s.respond s.trusted_relayer id y b
      = .error (if y.length = 32 then ContractErr.TokenMismatch
                else ContractErr.InvalidYieldId) ∧
    step s (.respond s.trusted_relayer id y b) = s := by
  have hresp : s.respond s.trusted_relayer id y b
      = .error (if y.length = 32 then ContractErr.TokenMismatch
                else ContractErr.InvalidYieldId) := by
    unfold Contract.respond
    rw [if_neg (by simp : ¬ s.trusted_relayer ≠ s.trusted_relayer)]
    by_cases hl : y.length = 32
    · rw [if_neg (by simp [hl] : ¬ y.length ≠ 32)]
      simp only [hreq]
      rw [if_pos hmis, if_pos hl]
    · rw [if_pos hl, if_neg hl]
  exact ⟨hresp, by simp only [step, hresp]⟩

/-- C1 witness: the mismatch failure at a concrete state and token. -/
theorem claim_C1_witness :
    wState.respond wState.trusted_relayer 0 tok1 none
      = .error (if tok1.length = 32 then ContractErr.TokenMismatch
                else ContractErr.InvalidYieldId) ∧
    step wState (.respond wState.trusted_relayer 0 tok1 none) = wState :=
  claim_C1 wState 0 tok1 none
    { yield_id := tok0, url := "u", caller := "alice", context := none }
    (by decide) (by decide)

/-- C3 counterexample: the claim requires a failure with NoBody whenever no
NON-EMPTY staged body exists, but after staging an empty chunk the staged
body for id 0 is some empty byte string and the respond call with no inline
body succeeds instead of failing. -/
theorem claim_C3_counterexample :
    imapGet (step (step (Contract.new "relayer") (.fetch "alice" "u" none tok0))
        (.store_chunk "relayer" 0 [] false)).response_bodies 0 = some [] ∧
    ((step (step (Contract.new "relayer") (.fetch "alice" "u" none tok0))
        (.store_chunk "relayer" 0 [] false)).respond "relayer" 0 tok0 none).isOk
      = true ∧
    (step (step (Contract.new "relayer") (.fetch "alice" "u" none tok0))
        (.store_chunk "relayer" 0 [] false)).respond "relayer" 0 tok0 none
      ≠ .error .NoBody := by
  decide

/-- C3 amended: a respond call by the trusted relayer with a matching
32-byte token and no inline body fails with NoBody exactly when no staged
body at all exists for the id (an empty staged body counts as present), and
the failed call leaves the state, in particular the pending request,
unchanged. -/
theorem claim_C3 (s : Contract) (id : Nat) (y : Bytes) (req : StoredRequest)
    (hreq : imapGet s.requests id = some req)
    (htok : req.yield_id = y)
    (hlen : y.length = 32)
    (hnone : imapGet s.response_bodies id = none) :
    s.respond s.trusted_relayer id y none = .error .NoBody ∧
    step s (.respond s.trusted_relayer id y none) = s := by
  have hresp : s.respond s.trusted_relayer id y none = .error .NoBody := by
    unfold Contract.respond
    rw [if_neg (by simp : ¬ s.trusted_relayer ≠ s.trusted_relayer),
      if_neg (by simp [hlen] : ¬ y.length ≠ 32)]
    simp only [hreq]
    rw [if_neg (by simp [htok] : ¬ req.yield_id ≠ y)]
    simp only [hnone]
  exact ⟨hresp, by simp only [step, hresp]⟩

/-- C3 witness: the NoBody failure at a concrete state with nothing
staged. -/
theorem claim_C3_witness :
    wStateNB.respond wStateNB.trusted_relayer 0 tok0 none = .error .NoBody ∧
    step wStateNB (.respond wStateNB.trusted_relayer 0 tok0 none) = wStateNB :=
  claim_C3 wStateNB 0 tok0
    { yield_id := tok0, url := "u", caller := "alice", context := none }
    (by decide) (by decide) (by decide) (by decide)

/-- C8 counterexample: after a first settle has removed the pending
request, a second on_fetch_complete invocation for the same id is not a
no-op: it fails with the Missing request for callback panic. -/
theorem claim_C8_counterexample :
    (step (step (Contract.new "relayer") (.fetch "alice" "u" none tok0))
        (.settle 0 (.Successful []))).on_fetch_complete 0 (.Successful [])
      = .error .MissingRequest := by
  decide

/-- C8 amended: invoking on_fetch_complete for an id with no pending
request (in particular a second invocation after the first removed it)
fails with the Missing request for callback panic, and since a panicking
call reverts, it does not change state. -/
theorem claim_C8 (s : Contract) (id : Nat) (pr : HostPromiseResult)
    (h : imapGet s.requests id = none) :
    s.on_fetch_complete id pr = .error .MissingRequest ∧
    step s (.settle id pr) = s := by
  have hcall : s.on_fetch_complete id pr = .error .MissingRequest := by
    unfold Contract.on_fetch_complete
    simp only [h]
  exact ⟨hcall, by simp only [step, hcall]⟩

/-- C8 witness: the second settle at the concrete two-step run. -/
theorem claim_C8_witness :
    (step (step (Contract.new "relayer") (.fetch "alice" "u" none tok0))
        (.settle 0 (.Successful []))).on_fetch_complete 0 (.Successful [])
      = .error .MissingRequest ∧
    step (step (step (Contract.new "relayer") (.fetch "alice" "u" none tok0))
        (.settle 0 (.Successful []))) (.settle 0 (.Successful []))
      = step (step (Contract.new "relayer") (.fetch "alice" "u" none tok0))
          (.settle 0 (.Successful [])) :=
  claim_C8 _ 0 (.Successful []) (by decide)

/-- C10: a respond call by the trusted relayer whose yield id is not
exactly 32 bytes fails with Invalid yield id without mutating state, for
every state — in particular also when no pending request exists for the id,
so the invalid-length token is reported before the Unknown request id
check. -/
theorem claim_C10 (s : Contract) (id : Nat) (y : Bytes) (b : Option Bytes)
    (hlen : y.length ≠ 32) :
    s.respond s.trusted_relayer id y b = .error .InvalidYieldId ∧
    step s (.respond s.trusted_relayer id y b) = s := by
  have hresp : s.respond s.trusted_relayer id y b = .error .InvalidYieldId := by
    unfold Contract.respond
    rw [if_neg (by simp : ¬ s.trusted_relayer ≠ s.trusted_relayer), if_pos hlen]
  exact ⟨hresp, by simp only [step, hresp]⟩

/-- C10 witness: a three-byte token on a state with no request 7 fails with
Invalid yield id, not Unknown request id. -/
theorem claim_C10_witness :
    wStateNB.respond wStateNB.trusted_relayer 7 [1, 2, 3] none
      = .error .InvalidYieldId ∧
    step wStateNB (.respond wStateNB.trusted_relayer 7 [1, 2, 3] none) = wStateNB :=
  claim_C10 wStateNB 7 [1, 2, 3] none (by decide)

/-- C2: settling an existing pending request succeeds, removes both the
pending request and any staged body for the id, and returns a FetchResult
with status Completed and body equal to the staged bytes at call time when
the resolve promise succeeded, or status TimedOut and no body when it
failed. The states have well-formed tables (no duplicate keys), as every
reachable contract state does. -/
theorem claim_C2 (s : Contract) (id : Nat) (pr : HostPromiseResult)
    (req : StoredRequest)
    (hnr : (s.requests.map Prod.fst).Nodup)
    (hnb : (s.response_bodies.map Prod.fst).Nodup)
    (hreq : imapGet s.requests id = some req) :
    (s.on_fetch_complete id pr).isOk = true ∧
    imapGet (step s (.settle id pr)).requests id = none ∧
    imapGet (step s (.settle id pr)).response_bodies id = none ∧
    (pr ≠ .Failed → settleResult s id pr
        = some { request_id := id, url := req.url, status := .Completed
                 body := imapGet s.response_bodies id
                 context := req.context, caller := req.caller }) ∧
    (pr = .Failed → settleResult s id pr
        = some { request_id := id, url := req.url, status := .TimedOut
                 body := none, context := req.context, caller := req.caller }) := by
  cases pr with
  | Successful d =>
    have hcall : s.on_fetch_complete id (.Successful d)
        = .ok ({ s with requests := imapRemove s.requests id
                        response_bodies := imapRemove s.response_bodies id },
               { request_id := id, url := req.url, status := .Completed
                 body := imapGet s.response_bodies id
                 context := req.context, caller := req.caller }) := by
      unfold Contract.on_fetch_complete
      simp only [hreq]
    refine ⟨by rw [hcall]; rfl, ?_, ?_, ?_, ?_⟩
    · simp only [step, hcall]
      exact imapGet_imapRemove_self _ _ hnr
    · simp only [step, hcall]
      exact imapGet_imapRemove_self _ _ hnb
    · intro h2
      simp only [settleResult, hcall]
    · intro h2
      exact HostPromiseResult.noConfusion h2
  | Failed =>
    have hcall : s.on_fetch_complete id .Failed
        = .ok ({ s with requests := imapRemove s.requests id
                        response_bodies := imapRemove s.response_bodies id },
               { request_id := id, url := req.url, status := .TimedOut
                 body := none, context := req.context, caller := req.caller }) := by
      unfold Contract.on_fetch_complete
      simp only [hreq]
    refine ⟨by rw [hcall]; rfl, ?_, ?_, ?_, ?_⟩
    · simp only [step, hcall]
      exact imapGet_imapRemove_self _ _ hnr
    · simp only [step, hcall]
      exact imapGet_imapRemove_self _ _ hnb
    · intro h2
      exact absurd rfl h2
    · intro h2
      simp only [settleResult, hcall]

/-- C2 witness: settling request 0 of the concrete witness state after a
successful resume. -/
theorem claim_C2_witness :
    (wState.on_fetch_complete 0 (.Successful [])).isOk = true ∧
    imapGet (step wState (.settle 0 (.Successful []))).requests 0 = none ∧
    imapGet (step wState (.settle 0 (.Successful []))).response_bodies 0 = none ∧
    (HostPromiseResult.Successful [] ≠ .Failed →
        settleResult wState 0 (.Successful [])
          = some { request_id := 0, url := "u", status := .Completed
                   body := imapGet wState.response_bodies 0
                   context := none, caller := "alice" }) ∧
    (HostPromiseResult.Successful [] = .Failed →
        settleResult wState 0 (.Successful [])
          = some { request_id := 0, url := "u", status := .TimedOut
                   body := none, context := none, caller := "alice" }) :=
  claim_C2 wState 0 (.Successful [])
    { yield_id := tok0, url := "u", caller := "alice", context := none }
    (by decide) (by decide) (by decide)

/-- C4 counterexample: the state reached by three fetches and a settle of
request 0 is reachable, yet list_requests returns ids in order 2, 1 —
swap-removal moved the last key into the removed slot, so the snapshot is
not ordered by request id ascending. -/
theorem claim_C4_counterexample :
    (execTrace (Contract.new "relayer")
        [.fetch "alice" "u0" none tok0, .fetch "alice" "u1" none tok0,
         .fetch "alice" "u2" none tok0,
         .settle 0 .Failed]).list_requests.map PendingRequest.request_id
      = [2, 1] ∧
    ¬ ((execTrace (Contract.new "relayer")
        [.fetch "alice" "u0" none tok0, .fetch "alice" "u1" none tok0,
         .fetch "alice" "u2" none tok0,
         .settle 0 .Failed]).list_requests.map PendingRequest.request_id).Pairwise
        (fun a b => a ≤ b) := by
  decide

/-- C4 amended: list_requests is a read-only snapshot whose entries are
exactly the rows of the requests table in key-vector order; the ids are
strictly ascending for every state reachable by fetches alone, but a
resolution swap-removes its key, moving the last key into the removed slot,
so after interleaved resolutions the order need not be ascending. -/
theorem claim_C4 :
    (∀ s : Contract,
        s.list_requests.map PendingRequest.request_id = s.requests.map Prod.fst) ∧
    ∀ (r : AccountId) (ops : List Op), ops.all isFetchOp = true →
      ((execTrace (Contract.new r) ops).list_requests.map
          PendingRequest.request_id).Pairwise (· < ·) := by
  refine ⟨list_requests_ids, fun r ops h => ?_⟩
  rw [list_requests_ids]
  exact (goodIds_trace ops _ h (goodIds_new r)).1

/-- C4 witness: the snapshot equation at the witness state and the
ascending order after two fetches. -/
theorem claim_C4_witness :
    wState.list_requests.map PendingRequest.request_id
      = wState.requests.map Prod.fst ∧
    ((execTrace (Contract.new "r")
        [.fetch "a" "u" none tok0, .fetch "a" "v" none tok0]).list_requests.map
        PendingRequest.request_id).Pairwise (· < ·) :=
  ⟨claim_C4.1 wState, claim_C4.2 "r" _ (by decide)⟩

/-- C5: a trusted-relayer store_response_chunk always succeeds; with
append false the staged bytes for the id become exactly data, and with
append true they become previous concatenated with data, where previous is
the prior staged bytes or empty when nothing was staged. -/
theorem claim_C5 (s : Contract) (id : Nat) (data : Bytes) :
    (s.store_response_chunk s.trusted_relayer id data false).isOk = true ∧
    (s.store_response_chunk s.trusted_relayer id data true).isOk = true ∧
    imapGet (step s (.store_chunk s.trusted_relayer id data false)).response_bodies id
      = some data ∧
    imapGet (step s (.store_chunk s.trusted_relayer id data true)).response_bodies id
      = some ((imapGet s.response_bodies id).getD [] ++ data) := by
  refine ⟨?_, ?_, ?_, ?_⟩
  · rw [store_ok_of_trusted]
    rfl
  · rw [store_ok_of_trusted]
    rfl
  · simp only [step, store_ok_of_trusted]
    simpa using imapGet_imapInsert_self s.response_bodies id data
  · simp only [step, store_ok_of_trusted]
    simpa using
      imapGet_imapInsert_self s.response_bodies id
        ((imapGet s.response_bodies id).getD [] ++ data)

/-- C9: store_response_chunk by the trusted relayer succeeds even when no
pending request exists for the id — existence is never checked — creating
or extending a staged body while leaving the requests table untouched. -/
theorem claim_C9 (s : Contract) (id : Nat) (data : Bytes) (ap : Bool)
    (_h : imapGet s.requests id = none) :
    (s.store_response_chunk s.trusted_relayer id data ap).isOk = true ∧
    imapGet (step s (.store_chunk s.trusted_relayer id data ap)).response_bodies id
      = some ((if ap then (imapGet s.response_bodies id).getD [] else []) ++ data) ∧
    (step s (.store_chunk s.trusted_relayer id data ap)).requests = s.requests := by
  refine ⟨?_, ?_, ?_⟩
  · rw [store_ok_of_trusted]
    rfl
  · simp only [step, store_ok_of_trusted]
    exact imapGet_imapInsert_self _ _ _
  · simp only [step, store_ok_of_trusted]

/-- C9 witness: staging bytes for id 9, which has no pending request, on
the concrete witness state. -/
theorem claim_C9_witness :
    (wState.store_response_chunk wState.trusted_relayer 9 [4, 2] true).isOk = true ∧
    imapGet (step wState
        (.store_chunk wState.trusted_relayer 9 [4, 2] true)).response_bodies 9
      = some ((if true then (imapGet wState.response_bodies 9).getD [] else []) ++ [4, 2]) ∧
    (step wState (.store_chunk wState.trusted_relayer 9 [4, 2] true)).requests
      = wState.requests :=
  claim_C9 wState 9 [4, 2] true (by decide)

/-- C6: fetch assigns the current counter value as the request id and
advances the counter by a checked increment: allocation fails with
Overflow exactly when the 64-bit counter would wrap, and the id assigned by
any successful fetch is strictly smaller than the id assigned by any later
successful fetch, across arbitrary interleaved operations, so ids are
strictly increasing and never reused. -/
theorem claim_C6 :
    (∀ (s : Contract) (c : AccountId) (u : String) (x : Option Bytes) (y : Bytes),
        s.next_request_id + 1 ≥ 2 ^ 64 → s.fetch c u x y = .error .Overflow) ∧
    (∀ (s : Contract) (c : AccountId) (u : String) (x : Option Bytes) (y : Bytes),
        y.length = 32 → s.next_request_id + 1 < 2 ^ 64 →
        (s.fetch c u x y).toOption.map Prod.snd = some s.next_request_id ∧
        (step s (.fetch c u x y)).next_request_id = s.next_request_id + 1) ∧
    ∀ (s1 t1 : Contract) (c1 : AccountId) (u1 : String) (x1 : Option Bytes)
        (y1 : Bytes) (id1 : Nat),
      s1.fetch c1 u1 x1 y1 = .ok (t1, id1) →
      ∀ (ops : List Op) (t2 : Contract) (c2 : AccountId) (u2 : String)
          (x2 : Option Bytes) (y2 : Bytes) (id2 : Nat),
        (execTrace t1 ops).fetch c2 u2 x2 y2 = .ok (t2, id2) → id1 < id2 := by
  refine ⟨?_, ?_, ?_⟩
  · intro s c u x y hov
    unfold Contract.fetch
    rw [if_pos hov]
  · intro s c u x y hy hn
    rw [fetch_ok_intro s c u x y hn hy]
    refine ⟨rfl, ?_⟩
    simp only [step, fetch_ok_intro s c u x y hn hy]
  · intro s1 t1 c1 u1 x1 y1 id1 h1 ops t2 c2 u2 x2 y2 id2 h2
    obtain ⟨hid1, hnext1, _⟩ := fetch_ok_elim h1
    obtain ⟨hid2, _⟩ := fetch_ok_elim h2
    have hmono := execTrace_next_mono ops t1
    omega

/-- C6 witness: overflow at the saturated counter, assignment of id 0 by
the first fetch on a fresh contract, and the strict increase from id 0 to
id 1 across two consecutive fetches. -/
theorem claim_C6_witness :
    ({ trusted_relayer := "r", next_request_id := 2 ^ 64 - 1, requests := []
       response_bodies := [] } : Contract).fetch "a" "u" none tok0
      = .error .Overflow ∧
    ((Contract.new "r").fetch "a" "u" none tok0).toOption.map Prod.snd = some 0 ∧
    (0 : Nat) < 1 :=
  ⟨claim_C6.1 _ "a" "u" none tok0 (by decide),
   (claim_C6.2.1 (Contract.new "r") "a" "u" none tok0 (by decide) (by decide)).1,
   claim_C6.2.2 (Contract.new "r")
     ({ trusted_relayer := "r", next_request_id := 1
        requests := [(0, { yield_id := tok0, url := "u", caller := "a", context := none })]
        response_bodies := [] } : Contract)
     "a" "u" none tok0 0 (by decide) []
     ({ trusted_relayer := "r", next_request_id := 2
        requests := [(0, { yield_id := tok0, url := "u", caller := "a", context := none }),
                     (1, { yield_id := tok0, url := "v", caller := "a", context := none })]
        response_bodies := [] } : Contract)
     "a" "v" none tok0 1 (by decide)⟩

/-- Seven hundred thousand zero bytes: a body larger than CHUNK_SIZE, used
to witness the chunked path of the relayer dispatch. -/
def bigBody : Bytes := List.replicate 700000 0

/-- C7: the relayer dispatches a fetched body by size: an empty body is
resolved inline with an empty body argument; a non-empty body of at most
CHUNK_SIZE bytes goes in one atomic batch of store_response_chunk with
append false followed by respond with no inline body; a larger body is
split into ceil(len / CHUNK_SIZE) pieces of at most CHUNK_SIZE bytes, the
first stored with append false and the rest with append true, followed by a
separate respond — and executing the plan against the contract leaves the
staged bytes equal to the original body, byte for byte and in order. -/
theorem claim_C7 (id : Nat) (y body : Bytes) (s : Contract) :
    (body = [] → handle_request id y body = [.single (.respond id y (some []))]) ∧
    (body ≠ [] → body.length ≤ CHUNK_SIZE →
        handle_request id y body
          = [.batch [.store_chunk id body false, .respond id y none]]) ∧
    (body.length > CHUNK_SIZE →
        (chunksOf CHUNK_SIZE body).length
          = (body.length + (CHUNK_SIZE - 1)) / CHUNK_SIZE ∧
        (∀ c ∈ chunksOf CHUNK_SIZE body, c.length ≤ CHUNK_SIZE) ∧
        (∀ (c0 : Bytes) (rest : List Bytes), chunksOf CHUNK_SIZE body = c0 :: rest →
            handle_request id y body
              = Submission.single (.store_chunk id c0 false) ::
                  ((rest.map fun c => Submission.single (.store_chunk id c true)) ++
                    [Submission.single (.respond id y none)])) ∧
        imapGet (applySubmissions s.trusted_relayer s
            (handle_request id y body)).response_bodies id = some body) := by
  have hCK : CHUNK_SIZE ≠ 0 := by decide
  refine ⟨?_, ?_, ?_⟩
  · intro he
    subst he
    rfl
  · intro hne hle
    unfold handle_request
    rw [if_neg (by simpa [List.isEmpty_iff] using hne), if_pos hle]
  · intro hbig
    have hne : body ≠ [] := by
      intro h
      rw [h] at hbig
      simp [CHUNK_SIZE] at hbig
    refine ⟨chunksOf_length CHUNK_SIZE body hCK, chunksOf_mem_length CHUNK_SIZE body hCK,
      ?_, staged_after_chunk_plan id y body s hbig⟩
    intro c0 rest hch
    have hplan : handle_request id y body
        = store_response_chunks id body ++ [.single (.respond id y none)] := by
      unfold handle_request
      rw [if_neg (by simpa [List.isEmpty_iff] using hne), if_neg (by omega)]
    rw [hplan, store_response_chunks_cons id body c0 rest hch, List.cons_append]

/-- C7 witness: the three dispatch shapes at concrete bodies — empty,
three bytes, and seven hundred thousand bytes. -/
theorem claim_C7_witness :
    handle_request 3 tok0 [] = [.single (.respond 3 tok0 (some []))] ∧
    handle_request 3 tok0 [5, 6, 7]
      = [.batch [.store_chunk 3 [5, 6, 7] false, .respond 3 tok0 none]] ∧
    ((chunksOf CHUNK_SIZE bigBody).length
        = (bigBody.length + (CHUNK_SIZE - 1)) / CHUNK_SIZE ∧
      (∀ c ∈ chunksOf CHUNK_SIZE bigBody, c.length ≤ CHUNK_SIZE) ∧
      (∀ (c0 : Bytes) (rest : List Bytes), chunksOf CHUNK_SIZE bigBody = c0 :: rest →
          handle_request 3 tok0 bigBody
            = Submission.single (.store_chunk 3 c0 false) ::
                ((rest.map fun c => Submission.single (.store_chunk 3 c true)) ++
                  [Submission.single (.respond 3 tok0 none)])) ∧
      imapGet (applySubmissions wState.trusted_relayer wState
          (handle_request 3 tok0 bigBody)).response_bodies 3 = some bigBody) :=
  ⟨(claim_C7 3 tok0 [] wState).1 rfl,
   (claim_C7 3 tok0 [5, 6, 7] wState).2.1 (by decide) (by decide),
   (claim_C7 3 tok0 bigBody wState).2.2
     (by rw [bigBody, List.length_replicate]; decide)⟩

end HttpFetch
